import Mathlib

/-!
Shallow embedding of the gredis in-memory storage engine
(`internal/cache`, type `MemoryCache`).

Modelling conventions:
* `time.Time` is modelled as `Option Int` (nanoseconds): `none` is the Go
  zero time (`IsZero()`), i.e. "no expiration".  `time.Duration` is `Int`.
* Every operation takes the current time `now : Int` explicitly; the
  several `time.Now()` calls inside one Go method (e.g. in `isExpired`
  and `time.Until` within `GetTTL`) are identified with this single `now`.
* The Go `any` payload of `cacheItem` is modelled by the sum `GoVal`;
  the runtime type assertions `item.value.(string)` and
  `item.value.(*list.List)` become the partial projections
  `GoVal.asString` / `GoVal.asList`, and an operation whose cast would
  panic returns `none` (operations containing casts return `Option`).
* `container/list.List` of strings is modelled as `List String`
  (front = head); `PushFront` is cons, `PushBack` appends at the end.
* The `map[string]*cacheItem` is modelled as `String → Option cacheItem`;
  map assignment is `insert`, `delete` is `erase`.  Entries are mutated
  through pointers in Go; here mutation is re-insertion of the updated
  record, which has the same observable effect on the map.
* A Go `error` result is `Option CacheError` (`none` = `nil`); the pair
  result `([]string, error)` of `ListRange` is `Except CacheError (List String)`.
-/

inductive DataType where
  | StringType
  | ListType
deriving DecidableEq, Repr

inductive CacheError where
  | ErrKeyNotFound
  | ErrTypeMismatch
deriving DecidableEq, Repr

/-- The dynamically typed payload held in `cacheItem.value : any`. -/
inductive GoVal where
  | str (s : String)
  | lst (l : List String)
deriving DecidableEq, Repr

/-- The runtime cast `value.(string)`: `none` models a panic. -/
def GoVal.asString : GoVal → Option String
  | .str s => some s
  | .lst _ => none

/-- The runtime cast `value.(*list.List)` (with string elements): `none` models a panic. -/
def GoVal.asList : GoVal → Option (List String)
  | .str _ => none
  | .lst l => some l

/-- `cacheItem`: a value stored in the cache; `expireAt = none` is the zero time. -/
structure cacheItem where
  dataType : DataType
  value : GoVal
  expireAt : Option Int
deriving DecidableEq, Repr

/-- `isExpired`: `!i.expireAt.IsZero() && time.Now().After(i.expireAt)`. -/
def cacheItem.isExpired (i : cacheItem) (now : Int) : Bool :=
  match i.expireAt with
  | none => false
  | some t => now > t

/-- The key → entry map of `MemoryCache` (the lock and reaper bookkeeping
fields have no sequential semantics and are not modelled). -/
structure MemoryCache where
  items : String → Option cacheItem

def MemoryCache.empty : MemoryCache := ⟨fun _ => none⟩

/-- Map assignment `c.items[key] = item`. -/
def MemoryCache.insert (c : MemoryCache) (key : String) (item : cacheItem) : MemoryCache :=
  ⟨fun k => if k = key then some item else c.items k⟩

/-- Map deletion `delete(c.items, key)`. -/
def MemoryCache.erase (c : MemoryCache) (key : String) : MemoryCache :=
  ⟨fun k => if k = key then none else c.items k⟩

/-- `Get`: retrieves a string value; lazily evicts a found-but-expired entry. -/
def MemoryCache.Get (c : MemoryCache) (now : Int) (key : String) :
    Option ((String × Bool) × MemoryCache) :=
  match c.items key with
  | none => some (("", false), c)
  | some item =>
    if item.isExpired now then some (("", false), c.erase key)
    else if item.dataType ≠ .StringType then some (("", false), c)
    else item.value.asString.map fun s => ((s, true), c)

/-- `set`: the helper shared by `Set` and `SetWithTTL`. -/
def MemoryCache.set (c : MemoryCache) (now : Int) (key value : String) (ttl : Int) :
    Option CacheError × MemoryCache :=
  let expireAt : Option Int := if ttl > 0 then some (now + ttl) else none
  (none, c.insert key ⟨.StringType, .str value, expireAt⟩)

/-- `Set`: stores a string with no TTL. -/
def MemoryCache.Set (c : MemoryCache) (now : Int) (key value : String) :
    Option CacheError × MemoryCache :=
  c.set now key value 0

/-- `SetWithTTL`: stores a string with a TTL. -/
def MemoryCache.SetWithTTL (c : MemoryCache) (now : Int) (key value : String) (ttl : Int) :
    Option CacheError × MemoryCache :=
  c.set now key value ttl

/-- `Update`: updates an existing, unexpired string entry in place. -/
def MemoryCache.Update (c : MemoryCache) (now : Int) (key value : String) :
    Option CacheError × MemoryCache :=
  match c.items key with
  | none => (some .ErrKeyNotFound, c)
  | some item =>
    if item.isExpired now then (some .ErrKeyNotFound, c.erase key)
    else if item.dataType ≠ .StringType then (some .ErrTypeMismatch, c)
    else (none, c.insert key { item with value := .str value })

/-- `Remove`: deletes a key; only presence in the map is checked. -/
def MemoryCache.Remove (c : MemoryCache) (key : String) :
    Option CacheError × MemoryCache :=
  match c.items key with
  | none => (some .ErrKeyNotFound, c)
  | some _ => (none, c.erase key)

/-- `PushFront`: prepends to a list, creating a fresh one-element list on an
absent or expired key. -/
def MemoryCache.PushFront (c : MemoryCache) (now : Int) (key value : String) :
    Option (Option CacheError × MemoryCache) :=
  match c.items key with
  | none =>
    some (none, c.insert key ⟨.ListType, .lst [value], none⟩)
  | some item =>
    if item.isExpired now then
      some (none, (c.erase key).insert key ⟨.ListType, .lst [value], none⟩)
    else if item.dataType ≠ .ListType then some (some .ErrTypeMismatch, c)
    else item.value.asList.map fun l =>
      (none, c.insert key { item with value := .lst (value :: l) })

/-- `PushBack`: appends to a list, creating a fresh one-element list on an
absent or expired key. -/
def MemoryCache.PushBack (c : MemoryCache) (now : Int) (key value : String) :
    Option (Option CacheError × MemoryCache) :=
  match c.items key with
  | none =>
    some (none, c.insert key ⟨.ListType, .lst [value], none⟩)
  | some item =>
    if item.isExpired now then
      some (none, (c.erase key).insert key ⟨.ListType, .lst [value], none⟩)
    else if item.dataType ≠ .ListType then some (some .ErrTypeMismatch, c)
    else item.value.asList.map fun l =>
      (none, c.insert key { item with value := .lst (l ++ [value]) })

/-- `PopFront`: removes and returns the first element of a list. -/
def MemoryCache.PopFront (c : MemoryCache) (now : Int) (key : String) :
    Option ((String × Bool) × MemoryCache) :=
  match c.items key with
  | none => some (("", false), c)
  | some item =>
    if item.isExpired now then some (("", false), c.erase key)
    else if item.dataType ≠ .ListType then some (("", false), c)
    else item.value.asList.map fun l =>
      match l with
      | [] => (("", false), c)
      | x :: rest => ((x, true), c.insert key { item with value := .lst rest })

/-- `PopBack`: removes and returns the last element of a list. -/
def MemoryCache.PopBack (c : MemoryCache) (now : Int) (key : String) :
    Option ((String × Bool) × MemoryCache) :=
  match c.items key with
  | none => some (("", false), c)
  | some item =>
    if item.isExpired now then some (("", false), c.erase key)
    else if item.dataType ≠ .ListType then some (("", false), c)
    else item.value.asList.map fun l =>
      if l.isEmpty then (("", false), c)
      else ((l.getLastD "", true), c.insert key { item with value := .lst l.dropLast })

/-- The index arithmetic and extraction loop of `ListRange`, applied to the
underlying list: resolve negative indices, clamp, then slice inclusively. -/
def goListRange (l : List String) (start stop : Int) : List String :=
  let length : Int := l.length
  let start := if start < 0 then length + start else start
  let stop := if stop < 0 then length + stop else stop
  let start := if start < 0 then 0 else start
  let stop := if stop ≥ length then length - 1 else stop
  if start > stop ∨ start ≥ length then []
  else (l.drop start.toNat).take (stop - start + 1).toNat

/-- `ListRange`: returns a snapshot of the inclusive range `[start, stop]`. -/
def MemoryCache.ListRange (c : MemoryCache) (now : Int) (key : String) (start stop : Int) :
    Option (Except CacheError (List String) × MemoryCache) :=
  match c.items key with
  | none => some (.error .ErrKeyNotFound, c)
  | some item =>
    if item.isExpired now then some (.error .ErrKeyNotFound, c.erase key)
    else if item.dataType ≠ .ListType then some (.error .ErrTypeMismatch, c)
    else item.value.asList.map fun l => (.ok (goListRange l start stop), c)

/-- `SetTTL`: sets (or, for `ttl ≤ 0`, clears) the expiration of an existing
unexpired entry. -/
def MemoryCache.SetTTL (c : MemoryCache) (now : Int) (key : String) (ttl : Int) :
    Option CacheError × MemoryCache :=
  match c.items key with
  | none => (some .ErrKeyNotFound, c)
  | some item =>
    if item.isExpired now then (some .ErrKeyNotFound, c.erase key)
    else if ttl ≤ 0 then (none, c.insert key { item with expireAt := none })
    else (none, c.insert key { item with expireAt := some (now + ttl) })

/-- `GetTTL`: remaining TTL of a key; `-1` is the no-expiration sentinel. -/
def MemoryCache.GetTTL (c : MemoryCache) (now : Int) (key : String) :
    (Int × Bool) × MemoryCache :=
  match c.items key with
  | none => ((0, false), c)
  | some item =>
    if item.isExpired now then ((0, false), c.erase key)
    else
      match item.expireAt with
      | none => ((-1, true), c)
      | some t =>
        let ttl := t - now
        if ttl < 0 then ((0, false), c) else ((ttl, true), c)

/-- `RemoveTTL`: clears the expiration of an existing unexpired entry. -/
def MemoryCache.RemoveTTL (c : MemoryCache) (now : Int) (key : String) :
    Option CacheError × MemoryCache :=
  match c.items key with
  | none => (some .ErrKeyNotFound, c)
  | some item =>
    if item.isExpired now then (some .ErrKeyNotFound, c.erase key)
    else (none, c.insert key { item with expireAt := none })

/-- `Exists`: presence check with lazy eviction of an expired entry. -/
def MemoryCache.Exists (c : MemoryCache) (now : Int) (key : String) :
    Bool × MemoryCache :=
  match c.items key with
  | none => (false, c)
  | some item =>
    if item.isExpired now then (false, c.erase key)
    else (true, c)

/-- `Type`: the kind tag of a key (`0`, i.e. `StringType`, with `false` on
the not-found paths, as in the Go source). -/
def MemoryCache.Type' (c : MemoryCache) (now : Int) (key : String) :
    (DataType × Bool) × MemoryCache :=
  match c.items key with
  | none => ((.StringType, false), c)
  | some item =>
    if item.isExpired now then ((.StringType, false), c.erase key)
    else ((item.dataType, true), c)

/-- `Clear`: discards all entries. -/
def MemoryCache.Clear (c : MemoryCache) : Option CacheError × MemoryCache :=
  (none, ⟨fun _ => none⟩)

/-- `cleanup`: the reaper sweep, removing every expired entry. -/
def MemoryCache.cleanup (c : MemoryCache) (now : Int) : MemoryCache :=
  ⟨fun k =>
    match c.items k with
    | none => none
    | some item => if item.isExpired now then none else some item⟩

/-- Spec-side range function, written from the specification's words: resolve
each negative index `i` to `L + i`, floor `start` at `0`, cap `stop` at
`L - 1`, and take the inclusive slice; empty when (after resolution)
`start > stop` or `start ≥ L`. -/
def listRangeSpec (l : List String) (start stop : Int) : List String :=
  let L : Int := l.length
  let s := max (if start < 0 then L + start else start) 0
  let e := min (if stop < 0 then L + stop else stop) (L - 1)
  if s > e ∨ s ≥ L then []
  else (l.drop s.toNat).take (e - s + 1).toNat

/-- The state effect a failing operation is allowed to have (amended no-effect
property): the entry under the queried key is evicted when it was present but
expired, and nothing else changes. -/
def lazyEvict (c : MemoryCache) (now : Int) (key : String) : MemoryCache :=
  match c.items key with
  | none => c
  | some item => if item.isExpired now then c.erase key else c

/-- Consistency of the dynamic type tag with the dynamically typed payload:
`StringType` entries hold a string, `ListType` entries hold a list of
strings. -/
def cacheItem.typeOk (i : cacheItem) : Bool :=
  match i.dataType, i.value with
  | .StringType, .str _ => true
  | .ListType, .lst _ => true
  | _, _ => false

/-- The store invariant: every entry's payload matches its type tag. -/
def WF (c : MemoryCache) : Prop :=
  ∀ k item, c.items k = some item → item.typeOk = true

/-- One call to a public operation of the store; `cleanup` is the reaper
sweep. -/
inductive Op where
  | get (key : String)
  | set (key value : String)
  | setWithTTL (key value : String) (ttl : Int)
  | update (key value : String)
  | remove (key : String)
  | pushFront (key value : String)
  | pushBack (key value : String)
  | popFront (key : String)
  | popBack (key : String)
  | listRange (key : String) (start stop : Int)
  | setTTL (key : String) (ttl : Int)
  | getTTL (key : String)
  | removeTTL (key : String)
  | existsKey (key : String)
  | typeKey (key : String)
  | clear
  | cleanup
deriving DecidableEq, Repr

/-- Run one operation at time `now`, keeping only the resulting state;
`none` means a runtime payload cast panicked. -/
def run (c : MemoryCache) (now : Int) : Op → Option MemoryCache
  | .get k => (c.Get now k).map (·.2)
  | .set k v => some (c.Set now k v).2
  | .setWithTTL k v ttl => some (c.SetWithTTL now k v ttl).2
  | .update k v => some (c.Update now k v).2
  | .remove k => some (c.Remove k).2
  | .pushFront k v => (c.PushFront now k v).map (·.2)
  | .pushBack k v => (c.PushBack now k v).map (·.2)
  | .popFront k => (c.PopFront now k).map (·.2)
  | .popBack k => (c.PopBack now k).map (·.2)
  | .listRange k start stop => (c.ListRange now k start stop).map (·.2)
  | .setTTL k ttl => some (c.SetTTL now k ttl).2
  | .getTTL k => some (c.GetTTL now k).2
  | .removeTTL k => some (c.RemoveTTL now k).2
  | .existsKey k => some (c.Exists now k).2
  | .typeKey k => some (c.Type' now k).2
  | .clear => some (c.Clear).2
  | .cleanup => some (c.cleanup now)

/-- Run a sequence of operations, each at its own time stamp. -/
def runSeq (c : MemoryCache) : List (Int × Op) → Option MemoryCache
  | [] => some c
  | (now, op) :: rest => (run c now op).bind fun c' => runSeq c' rest

/-- A store holding one unexpired scalar entry. -/
def stScalar : MemoryCache :=
  MemoryCache.empty.insert "k" ⟨.StringType, .str "v", none⟩

/-- A store holding one scalar entry that expires at time 5. -/
def stScalarExp : MemoryCache :=
  MemoryCache.empty.insert "k" ⟨.StringType, .str "v", some 5⟩

/-- A store holding one non-expiring three-element list entry. -/
def stList3 : MemoryCache :=
  MemoryCache.empty.insert "k" ⟨.ListType, .lst ["a", "b", "c"], none⟩

/-- A store holding one non-expiring one-element list entry. -/
def stList1 : MemoryCache :=
  MemoryCache.empty.insert "k" ⟨.ListType, .lst ["a"], none⟩

theorem insert_items_self (c : MemoryCache) (key : String) (item : cacheItem) :
    (c.insert key item).items key = some item := by
  simp [MemoryCache.insert]

theorem insert_items_ne (c : MemoryCache) (key k : String) (item : cacheItem)
    (h : k ≠ key) : (c.insert key item).items k = c.items k := by
  simp [MemoryCache.insert, h]

theorem erase_items_self (c : MemoryCache) (key : String) :
    (c.erase key).items key = none := by
  simp [MemoryCache.erase]

/-- C4: `Remove` deletes any present entry, expired or not, and fails with
`KeyNotFound` exactly when the key is absent from the map; expiration state
plays no role (the operation does not even consult the clock). -/
theorem gredis_C4 (c : MemoryCache) (key : String) :
    (c.items key = none → c.Remove key = (some .ErrKeyNotFound, c)) ∧
    (∀ item, c.items key = some item → c.Remove key = (none, c.erase key)) := by
  constructor
  · intro h
    simp [MemoryCache.Remove, h]
  · intro item h
    simp [MemoryCache.Remove, h]

theorem gredis_C4_witness :
    stScalarExp.Remove "k" = (none, stScalarExp.erase "k") ∧
    MemoryCache.empty.Remove "k" = (some .ErrKeyNotFound, MemoryCache.empty) :=
  ⟨(gredis_C4 stScalarExp "k").2 ⟨.StringType, .str "v", some 5⟩ rfl,
   (gredis_C4 MemoryCache.empty "k").1 rfl⟩

/-- C5: `Update` on an unexpired scalar entry replaces only the payload,
keeping `expireAt` and every other key intact; it fails with `KeyNotFound`
on an absent or expired key and with `TypeMismatch` on an unexpired list
entry. -/
theorem gredis_C5 (c : MemoryCache) (now : Int) (key value : String) :
    (c.items key = none → c.Update now key value = (some .ErrKeyNotFound, c)) ∧
    (∀ item, c.items key = some item → item.isExpired now = true →
      (c.Update now key value).1 = some .ErrKeyNotFound) ∧
    (∀ item, c.items key = some item → item.isExpired now = false →
      item.dataType = .ListType →
      (c.Update now key value).1 = some .ErrTypeMismatch) ∧
    (∀ item, c.items key = some item → item.isExpired now = false →
      item.dataType = .StringType →
      c.Update now key value =
        (none, c.insert key ⟨.StringType, .str value, item.expireAt⟩) ∧
      ∀ k, k ≠ key → (c.Update now key value).2.items k = c.items k) := by
  refine ⟨fun h => by simp [MemoryCache.Update, h], fun item h hexp => ?_,
    fun item h hexp hty => ?_, fun item h hexp hty => ?_⟩
  · simp [MemoryCache.Update, h, hexp]
  · simp [MemoryCache.Update, h, hexp, hty]
  · have hmk : { item with value := GoVal.str value } =
        (⟨.StringType, .str value, item.expireAt⟩ : cacheItem) := by
      cases item
      simp_all
    constructor
    · simp [MemoryCache.Update, h, hexp, hty, hmk]
    · intro k hk
      simp [MemoryCache.Update, h, hexp, hty, MemoryCache.insert, hk]

theorem gredis_C5_witness :
    stScalar.Update 0 "k" "w" =
      (none, stScalar.insert "k" ⟨.StringType, .str "w", none⟩) ∧
    (stScalarExp.Update 10 "k" "w").1 = some .ErrKeyNotFound ∧
    (stList3.Update 0 "k" "w").1 = some .ErrTypeMismatch :=
  ⟨((gredis_C5 stScalar 0 "k" "w").2.2.2 ⟨.StringType, .str "v", none⟩
      rfl rfl rfl).1,
   (gredis_C5 stScalarExp 10 "k" "w").2.1 ⟨.StringType, .str "v", some 5⟩ rfl rfl,
   (gredis_C5 stList3 0 "k" "w").2.2.1 ⟨.ListType, .lst ["a", "b", "c"], none⟩
      rfl rfl rfl⟩

/-- C10: with a non-positive TTL, `SetWithTTL` is exactly `Set`: it installs
a scalar entry with payload `value` and no expiration. -/
theorem gredis_C10 (c : MemoryCache) (now : Int) (key value : String) (ttl : Int)
    (h : ttl ≤ 0) :
    c.SetWithTTL now key value ttl = c.Set now key value ∧
    (c.SetWithTTL now key value ttl).2.items key =
      some ⟨.StringType, .str value, none⟩ := by
  have h1 : ¬ (ttl > 0) := by omega
  constructor
  · simp [MemoryCache.SetWithTTL, MemoryCache.Set, MemoryCache.set, h1]
  · simp [MemoryCache.SetWithTTL, MemoryCache.set, h1, MemoryCache.insert]

theorem gredis_C10_witness :
    MemoryCache.empty.SetWithTTL 3 "k" "v" (-7) = MemoryCache.empty.Set 3 "k" "v" ∧
    (MemoryCache.empty.SetWithTTL 3 "k" "v" (-7)).2.items "k" =
      some ⟨.StringType, .str "v", none⟩ :=
  gredis_C10 MemoryCache.empty 3 "k" "v" (-7) (by decide)

/-- C7: from an empty store, `PushBack k "a"; PushBack k "b"; PushFront k "z"`
followed by `ListRange k 0 (-1)` yields exactly `["z", "a", "b"]`. -/
theorem gredis_C7 :
    ((MemoryCache.empty.PushBack 0 "k" "a").bind fun r1 =>
      (r1.2.PushBack 1 "k" "b").bind fun r2 =>
        (r2.2.PushFront 2 "k" "z").bind fun r3 =>
          (r3.2.ListRange 3 "k" 0 (-1)).map fun r4 => r4.1)
      = some (.ok ["z", "a", "b"]) := rfl

theorem goListRange_eq_spec (l : List String) (start stop : Int) :
    goListRange l start stop = listRangeSpec l start stop := by
  have hmax : ∀ a : Int, (if a < 0 then (0 : Int) else a) = max a 0 := by
    intro a
    omega
  have hmin : ∀ a L : Int, (if a ≥ L then L - 1 else a) = min a (L - 1) := by
    intro a L
    omega
  simp only [goListRange, listRangeSpec, hmax, hmin]

/-- C3: on an existing, unexpired list entry, `ListRange` returns — with no
error — exactly the slice described by the spec: negative indices resolved
as `L + i`, `start` floored at 0, `stop` capped at `L - 1`, inclusive slice,
and the empty sequence when the resolved range is empty or starts past the
end. -/
theorem gredis_C3 (c : MemoryCache) (now : Int) (key : String) (start stop : Int)
    (item : cacheItem) (l : List String)
    (hfind : c.items key = some item)
    (hexp : item.isExpired now = false)
    (hty : item.dataType = .ListType)
    (hval : item.value = .lst l) :
    c.ListRange now key start stop = some (.ok (listRangeSpec l start stop), c) := by
  simp [MemoryCache.ListRange, hfind, hexp, hty, hval, GoVal.asList,
    goListRange_eq_spec]

theorem gredis_C3_witness :
    stList3.ListRange 0 "k" (-100) 100 = some (.ok ["a", "b", "c"], stList3) ∧
    stList3.ListRange 0 "k" 5 2 = some (.ok [], stList3) := by
  have h1 := gredis_C3 stList3 0 "k" (-100) 100
    ⟨.ListType, .lst ["a", "b", "c"], none⟩ ["a", "b", "c"] rfl rfl rfl rfl
  have h2 := gredis_C3 stList3 0 "k" 5 2
    ⟨.ListType, .lst ["a", "b", "c"], none⟩ ["a", "b", "c"] rfl rfl rfl rfl
  exact ⟨h1.trans (by rfl), h2.trans (by rfl)⟩

/-- C6: `PushFront`/`PushBack` install a fresh non-expiring one-element list
on an absent or expired key, prepend/append on an unexpired list entry, and
fail with `TypeMismatch` on an unexpired scalar entry, leaving the store
unchanged in that case. -/
theorem gredis_C6 (c : MemoryCache) (now : Int) (key value : String) :
    (c.items key = none →
      c.PushFront now key value =
        some (none, c.insert key ⟨.ListType, .lst [value], none⟩) ∧
      c.PushBack now key value =
        some (none, c.insert key ⟨.ListType, .lst [value], none⟩)) ∧
    (∀ item, c.items key = some item → item.isExpired now = true →
      c.PushFront now key value =
        some (none, (c.erase key).insert key ⟨.ListType, .lst [value], none⟩) ∧
      c.PushBack now key value =
        some (none, (c.erase key).insert key ⟨.ListType, .lst [value], none⟩)) ∧
    (∀ item l, c.items key = some item → item.isExpired now = false →
      item.dataType = .ListType → item.value = .lst l →
      c.PushFront now key value =
        some (none, c.insert key { item with value := .lst (value :: l) }) ∧
      c.PushBack now key value =
        some (none, c.insert key { item with value := .lst (l ++ [value]) })) ∧
    (∀ item, c.items key = some item → item.isExpired now = false →
      item.dataType = .StringType →
      c.PushFront now key value = some (some .ErrTypeMismatch, c) ∧
      c.PushBack now key value = some (some .ErrTypeMismatch, c)) := by
  refine ⟨fun h => ?_, fun item h hexp => ?_, fun item l h hexp hty hval => ?_,
    fun item h hexp hty => ?_⟩
  · constructor <;> simp [MemoryCache.PushFront, MemoryCache.PushBack, h]
  · constructor <;> simp [MemoryCache.PushFront, MemoryCache.PushBack, h, hexp]
  · constructor <;>
      simp [MemoryCache.PushFront, MemoryCache.PushBack, h, hexp, hty, hval,
        GoVal.asList]
  · constructor <;>
      simp [MemoryCache.PushFront, MemoryCache.PushBack, h, hexp, hty]

theorem gredis_C6_witness :
    MemoryCache.empty.PushFront 0 "k" "x" =
      some (none, MemoryCache.empty.insert "k" ⟨.ListType, .lst ["x"], none⟩) ∧
    stScalarExp.PushBack 10 "k" "x" =
      some (none, (stScalarExp.erase "k").insert "k" ⟨.ListType, .lst ["x"], none⟩) ∧
    stList3.PushFront 0 "k" "x" =
      some (none, stList3.insert "k" ⟨.ListType, .lst ["x", "a", "b", "c"], none⟩) ∧
    stScalar.PushBack 0 "k" "x" = some (some .ErrTypeMismatch, stScalar) :=
  ⟨((gredis_C6 MemoryCache.empty 0 "k" "x").1 rfl).1,
   ((gredis_C6 stScalarExp 10 "k" "x").2.1 ⟨.StringType, .str "v", some 5⟩
      rfl rfl).2,
   ((gredis_C6 stList3 0 "k" "x").2.2.1 ⟨.ListType, .lst ["a", "b", "c"], none⟩
      ["a", "b", "c"] rfl rfl rfl rfl).1,
   ((gredis_C6 stScalar 0 "k" "x").2.2.2 ⟨.StringType, .str "v", none⟩
      rfl rfl rfl).2⟩

/-- C8: popping the sole element of an unexpired one-element list entry
returns it with `ok = true` and keeps the entry present as an empty list:
`Type` still reports `ListType` with `found = true`, `ListRange key 0 (-1)`
returns the empty sequence without error, and a further `PopFront` reports
not-ok and changes nothing. -/
theorem gredis_C8 (c : MemoryCache) (now : Int) (key value : String)
    (item : cacheItem)
    (hfind : c.items key = some item) (hexp : item.isExpired now = false)
    (hty : item.dataType = .ListType) (hval : item.value = .lst [value]) :
    c.PopFront now key =
      some ((value, true), c.insert key { item with value := .lst [] }) ∧
    c.PopBack now key =
      some ((value, true), c.insert key { item with value := .lst [] }) ∧
    ((c.insert key { item with value := .lst [] }).Type' now key).1 =
      (.ListType, true) ∧
    (c.insert key { item with value := .lst [] }).ListRange now key 0 (-1) =
      some (.ok [], c.insert key { item with value := .lst [] }) ∧
    (c.insert key { item with value := .lst [] }).PopFront now key =
      some (("", false), c.insert key { item with value := .lst [] }) := by
  obtain ⟨d, v, e⟩ := item
  have hd : d = .ListType := hty
  have hv : v = .lst [value] := hval
  subst hd
  subst hv
  have hexp' : cacheItem.isExpired ⟨.ListType, .lst [], e⟩ now = false := hexp
  refine ⟨?_, ?_, ?_, ?_, ?_⟩
  · simp [MemoryCache.PopFront, hfind, hexp, GoVal.asList]
  · simp [MemoryCache.PopBack, hfind, hexp, GoVal.asList]
  · simp [MemoryCache.Type', insert_items_self, hexp']
  · simp [MemoryCache.ListRange, insert_items_self, hexp', GoVal.asList,
      goListRange]
  · simp [MemoryCache.PopFront, insert_items_self, hexp', GoVal.asList]

theorem gredis_C8_witness :
    stList1.PopFront 0 "k" =
      some (("a", true), stList1.insert "k" ⟨.ListType, .lst [], none⟩) ∧
    ((stList1.insert "k" ⟨.ListType, .lst [], none⟩).Type' 0 "k").1 =
      (.ListType, true) ∧
    (stList1.insert "k" ⟨.ListType, .lst [], none⟩).ListRange 0 "k" 0 (-1) =
      some (.ok [], stList1.insert "k" ⟨.ListType, .lst [], none⟩) ∧
    (stList1.insert "k" ⟨.ListType, .lst [], none⟩).PopFront 0 "k" =
      some (("", false), stList1.insert "k" ⟨.ListType, .lst [], none⟩) := by
  have h := gredis_C8 stList1 0 "k" "a" ⟨.ListType, .lst ["a"], none⟩
    rfl rfl rfl rfl
  exact ⟨h.1, h.2.2.1, h.2.2.2.1, h.2.2.2.2⟩

/-- C1 counterexample: `Update` on a present-but-expired entry fails with
`KeyNotFound` yet changes the store — the expired entry under the key is
evicted, so the state after the failing call differs from the state before. -/
theorem gredis_C1_counterexample :
    (stScalarExp.Update 10 "k" "w").1 = some CacheError.ErrKeyNotFound ∧
    stScalarExp.items "k" = some ⟨.StringType, .str "v", some 5⟩ ∧
    (stScalarExp.Update 10 "k" "w").2.items "k" = none := by
  exact ⟨rfl, rfl, rfl⟩

theorem update_fail_state (c : MemoryCache) (now : Int) (key value : String)
    (h : (c.Update now key value).1 ≠ none) :
    (c.Update now key value).2 = lazyEvict c now key := by
  rcases hfind : c.items key with _ | item
  · simp [MemoryCache.Update, lazyEvict, hfind]
  · rcases hexp : item.isExpired now
    · rcases hd : item.dataType
      · exact absurd (by simp [MemoryCache.Update, hfind, hexp, hd]) h
      · simp [MemoryCache.Update, lazyEvict, hfind, hexp, hd]
    · simp [MemoryCache.Update, lazyEvict, hfind, hexp]

theorem setTTL_fail_state (c : MemoryCache) (now : Int) (key : String) (ttl : Int)
    (h : (c.SetTTL now key ttl).1 ≠ none) :
    (c.SetTTL now key ttl).2 = lazyEvict c now key := by
  rcases hfind : c.items key with _ | item
  · simp [MemoryCache.SetTTL, lazyEvict, hfind]
  · rcases hexp : item.isExpired now
    · exact absurd (by simp [MemoryCache.SetTTL, hfind, hexp]; split_ifs <;> rfl) h
    · simp [MemoryCache.SetTTL, lazyEvict, hfind, hexp]

theorem removeTTL_fail_state (c : MemoryCache) (now : Int) (key : String)
    (h : (c.RemoveTTL now key).1 ≠ none) :
    (c.RemoveTTL now key).2 = lazyEvict c now key := by
  rcases hfind : c.items key with _ | item
  · simp [MemoryCache.RemoveTTL, lazyEvict, hfind]
  · rcases hexp : item.isExpired now
    · exact absurd (by simp [MemoryCache.RemoveTTL, hfind, hexp]) h
    · simp [MemoryCache.RemoveTTL, lazyEvict, hfind, hexp]

theorem pushFront_fail_state (c : MemoryCache) (now : Int) (key value : String)
    (r : Option CacheError × MemoryCache)
    (h : c.PushFront now key value = some r) (hfail : r.1 ≠ none) :
    r.2 = lazyEvict c now key := by
  rcases hfind : c.items key with _ | ⟨d, v, e⟩
  · simp [MemoryCache.PushFront, hfind] at h
    rw [← h] at hfail
    simp at hfail
  · rcases hexp : cacheItem.isExpired ⟨d, v, e⟩ now
    · rcases d
      · simp [MemoryCache.PushFront, hfind, hexp] at h
        rw [← h]
        simp [lazyEvict, hfind, hexp]
      · rcases v with s | l
        · simp [MemoryCache.PushFront, hfind, hexp, GoVal.asList] at h
        · simp [MemoryCache.PushFront, hfind, hexp, GoVal.asList] at h
          rw [← h] at hfail
          simp at hfail
    · simp [MemoryCache.PushFront, hfind, hexp] at h
      rw [← h] at hfail
      simp at hfail

theorem pushBack_fail_state (c : MemoryCache) (now : Int) (key value : String)
    (r : Option CacheError × MemoryCache)
    (h : c.PushBack now key value = some r) (hfail : r.1 ≠ none) :
    r.2 = lazyEvict c now key := by
  rcases hfind : c.items key with _ | ⟨d, v, e⟩
  · simp [MemoryCache.PushBack, hfind] at h
    rw [← h] at hfail
    simp at hfail
  · rcases hexp : cacheItem.isExpired ⟨d, v, e⟩ now
    · rcases d
      · simp [MemoryCache.PushBack, hfind, hexp] at h
        rw [← h]
        simp [lazyEvict, hfind, hexp]
      · rcases v with s | l
        · simp [MemoryCache.PushBack, hfind, hexp, GoVal.asList] at h
        · simp [MemoryCache.PushBack, hfind, hexp, GoVal.asList] at h
          rw [← h] at hfail
          simp at hfail
    · simp [MemoryCache.PushBack, hfind, hexp] at h
      rw [← h] at hfail
      simp at hfail

theorem popFront_fail_state (c : MemoryCache) (now : Int) (key : String)
    (r : (String × Bool) × MemoryCache)
    (h : c.PopFront now key = some r) (hfail : r.1.2 = false) :
    r.2 = lazyEvict c now key := by
  rcases hfind : c.items key with _ | ⟨d, v, e⟩
  · simp [MemoryCache.PopFront, hfind] at h
    rw [← h]
    simp [lazyEvict, hfind]
  · rcases hexp : cacheItem.isExpired ⟨d, v, e⟩ now
    · rcases d
      · simp [MemoryCache.PopFront, hfind, hexp] at h
        rw [← h]
        simp [lazyEvict, hfind, hexp]
      · rcases v with s | ⟨_ | ⟨x, rest⟩⟩
        · simp [MemoryCache.PopFront, hfind, hexp, GoVal.asList] at h
        · simp [MemoryCache.PopFront, hfind, hexp, GoVal.asList] at h
          rw [← h]
          simp [lazyEvict, hfind, hexp]
        · simp [MemoryCache.PopFront, hfind, hexp, GoVal.asList] at h
          rw [← h] at hfail
          simp at hfail
    · simp [MemoryCache.PopFront, hfind, hexp] at h
      rw [← h]
      simp [lazyEvict, hfind, hexp]

theorem popBack_fail_state (c : MemoryCache) (now : Int) (key : String)
    (r : (String × Bool) × MemoryCache)
    (h : c.PopBack now key = some r) (hfail : r.1.2 = false) :
    r.2 = lazyEvict c now key := by
  rcases hfind : c.items key with _ | ⟨d, v, e⟩
  · simp [MemoryCache.PopBack, hfind] at h
    rw [← h]
    simp [lazyEvict, hfind]
  · rcases hexp : cacheItem.isExpired ⟨d, v, e⟩ now
    · rcases d
      · simp [MemoryCache.PopBack, hfind, hexp] at h
        rw [← h]
        simp [lazyEvict, hfind, hexp]
      · rcases v with s | ⟨_ | ⟨x, rest⟩⟩
        · simp [MemoryCache.PopBack, hfind, hexp, GoVal.asList] at h
        · simp [MemoryCache.PopBack, hfind, hexp, GoVal.asList] at h
          rw [← h]
          simp [lazyEvict, hfind, hexp]
        · simp [MemoryCache.PopBack, hfind, hexp, GoVal.asList, List.isEmpty] at h
          rw [← h] at hfail
          simp at hfail
    · simp [MemoryCache.PopBack, hfind, hexp] at h
      rw [← h]
      simp [lazyEvict, hfind, hexp]

theorem listRange_fail_state (c : MemoryCache) (now : Int) (key : String)
    (start stop : Int) (r : Except CacheError (List String) × MemoryCache)
    (err : CacheError)
    (h : c.ListRange now key start stop = some r) (hfail : r.1 = .error err) :
    r.2 = lazyEvict c now key := by
  rcases hfind : c.items key with _ | ⟨d, v, e⟩
  · simp [MemoryCache.ListRange, hfind] at h
    rw [← h]
    simp [lazyEvict, hfind]
  · rcases hexp : cacheItem.isExpired ⟨d, v, e⟩ now
    · rcases d
      · simp [MemoryCache.ListRange, hfind, hexp] at h
        rw [← h]
        simp [lazyEvict, hfind, hexp]
      · rcases v with s | l
        · simp [MemoryCache.ListRange, hfind, hexp, GoVal.asList] at h
        · simp [MemoryCache.ListRange, hfind, hexp, GoVal.asList] at h
          rw [← h] at hfail
          simp at hfail
    · simp [MemoryCache.ListRange, hfind, hexp] at h
      rw [← h]
      simp [lazyEvict, hfind, hexp]

theorem getTTL_fail_state (c : MemoryCache) (now : Int) (key : String)
    (hfail : (c.GetTTL now key).1.2 = false) :
    (c.GetTTL now key).2 = lazyEvict c now key := by
  rcases hfind : c.items key with _ | ⟨d, v, e⟩
  · simp [MemoryCache.GetTTL, lazyEvict, hfind]
  · rcases hexp : cacheItem.isExpired ⟨d, v, e⟩ now
    · rcases e with _ | t
      · simp [MemoryCache.GetTTL, hfind, hexp] at hfail
      · simp [MemoryCache.GetTTL, hfind, hexp, lazyEvict] at hfail ⊢
        split_ifs at hfail ⊢ <;> simp_all
    · simp [MemoryCache.GetTTL, lazyEvict, hfind, hexp]

/-- C1 (amended): whenever `Update`, `SetTTL`, `RemoveTTL`, `PushFront`,
`PushBack`, `PopFront`, `PopBack`, `ListRange` or `GetTTL` fails, the
resulting state is `lazyEvict`: unchanged except that a present-but-expired
entry under the queried key has been evicted; in particular a failure on an
absent or unexpired key leaves the store exactly unchanged. -/
theorem gredis_C1 (c : MemoryCache) (now : Int) (key value : String)
    (start stop ttl : Int) :
    ((c.Update now key value).1 ≠ none →
      (c.Update now key value).2 = lazyEvict c now key) ∧
    ((c.SetTTL now key ttl).1 ≠ none →
      (c.SetTTL now key ttl).2 = lazyEvict c now key) ∧
    ((c.RemoveTTL now key).1 ≠ none →
      (c.RemoveTTL now key).2 = lazyEvict c now key) ∧
    (∀ r, c.PushFront now key value = some r → r.1 ≠ none →
      r.2 = lazyEvict c now key) ∧
    (∀ r, c.PushBack now key value = some r → r.1 ≠ none →
      r.2 = lazyEvict c now key) ∧
    (∀ r, c.PopFront now key = some r → r.1.2 = false →
      r.2 = lazyEvict c now key) ∧
    (∀ r, c.PopBack now key = some r → r.1.2 = false →
      r.2 = lazyEvict c now key) ∧
    (∀ r err, c.ListRange now key start stop = some r → r.1 = .error err →
      r.2 = lazyEvict c now key) ∧
    ((c.GetTTL now key).1.2 = false →
      (c.GetTTL now key).2 = lazyEvict c now key) :=
  ⟨update_fail_state c now key value,
   setTTL_fail_state c now key ttl,
   removeTTL_fail_state c now key,
   pushFront_fail_state c now key value,
   pushBack_fail_state c now key value,
   popFront_fail_state c now key,
   popBack_fail_state c now key,
   fun r err h hf => listRange_fail_state c now key start stop r err h hf,
   getTTL_fail_state c now key⟩

theorem gredis_C1_witness :
    (stScalarExp.Update 10 "k" "w").2 = lazyEvict stScalarExp 10 "k" ∧
    (stScalar.PushBack 0 "k" "x").map (·.2) = some (lazyEvict stScalar 0 "k") :=
  ⟨(gredis_C1 stScalarExp 10 "k" "w" 0 0 0).1 (by decide),
   by
    have h := (gredis_C1 stScalar 0 "k" "x" 0 0 0).2.2.2.2.1
      (some .ErrTypeMismatch, stScalar) rfl (by decide)
    show some ((some CacheError.ErrTypeMismatch, stScalar).2) =
      some (lazyEvict stScalar 0 "k")
    exact congrArg some h⟩

/-- C2 counterexample: the key is present and unexpired at `now = 5` with
`expiresAt = 5`, so the remaining duration is exactly `0` (non-positive) —
yet `GetTTL` returns `(0, true)`, not `found = false`: the code's guard is
`ttl < 0`, not `ttl ≤ 0`. -/
theorem gredis_C2_counterexample :
    stScalarExp.items "k" = some ⟨.StringType, .str "v", some 5⟩ ∧
    cacheItem.isExpired ⟨.StringType, .str "v", some 5⟩ 5 = false ∧
    stScalarExp.GetTTL 5 "k" = ((0, true), stScalarExp) :=
  ⟨rfl, rfl, rfl⟩

/-- C2 (amended): for a key present and unexpired at the single instant
`now`: with no expiration `GetTTL` returns the sentinel `-1` with
`found = true`; with expiration `expiresAt = t` it returns the remainder
`t - now` with `found = true` whenever that remainder is non-negative —
including a remainder of exactly `0` — and only a strictly negative
remainder would be treated as not-found; for an unexpired entry the
remainder is always non-negative. -/
theorem gredis_C2 (c : MemoryCache) (now : Int) (key : String) (item : cacheItem)
    (hfind : c.items key = some item) (hexp : item.isExpired now = false) :
    (item.expireAt = none → c.GetTTL now key = ((-1, true), c)) ∧
    (∀ t, item.expireAt = some t →
      0 ≤ t - now ∧ c.GetTTL now key = ((t - now, true), c)) := by
  constructor
  · intro he
    simp [MemoryCache.GetTTL, hfind, hexp, he]
  · intro t he
    have hle : ¬ (t - now < 0) := by
      simp [cacheItem.isExpired, he] at hexp
      omega
    refine ⟨by omega, ?_⟩
    simp [MemoryCache.GetTTL, hfind, hexp, he, hle]

theorem gredis_C2_witness :
    0 ≤ (5 : Int) - 3 ∧ stScalarExp.GetTTL 3 "k" = ((5 - 3, true), stScalarExp) :=
  (gredis_C2 stScalarExp 3 "k" ⟨.StringType, .str "v", some 5⟩ rfl rfl).2 5 rfl

theorem WF_empty : WF MemoryCache.empty := by
  intro k item h
  simp [MemoryCache.empty] at h

theorem WF_erase (c : MemoryCache) (key : String) (h : WF c) :
    WF (c.erase key) := by
  intro k item hk
  simp only [MemoryCache.erase] at hk
  split at hk
  · exact absurd hk (by simp)
  · exact h k item hk

theorem WF_insert (c : MemoryCache) (key : String) (item : cacheItem)
    (h : WF c) (hi : item.typeOk = true) : WF (c.insert key item) := by
  intro k it hk
  simp only [MemoryCache.insert] at hk
  split at hk
  · cases hk
    exact hi
  · exact h k it hk

theorem WF_cleanup (c : MemoryCache) (now : Int) (h : WF c) :
    WF (c.cleanup now) := by
  intro k item hk
  simp only [MemoryCache.cleanup] at hk
  split at hk
  · exact absurd hk (by simp)
  case _ it heq =>
    split at hk
    · exact absurd hk (by simp)
    · cases hk
      exact h k item heq

theorem typeOk_str (i : cacheItem) (h : i.typeOk = true)
    (hd : i.dataType = .StringType) : ∃ s, i.value = .str s := by
  obtain ⟨d, v, e⟩ := i
  cases hd
  cases v with
  | str s => exact ⟨s, rfl⟩
  | lst l => exact absurd h (by simp [cacheItem.typeOk])

theorem typeOk_lst (i : cacheItem) (h : i.typeOk = true)
    (hd : i.dataType = .ListType) : ∃ l, i.value = .lst l := by
  obtain ⟨d, v, e⟩ := i
  cases hd
  cases v with
  | str s => exact absurd h (by simp [cacheItem.typeOk])
  | lst l => exact ⟨l, rfl⟩

theorem WF_set (c : MemoryCache) (now : Int) (k v : String) (ttl : Int)
    (h : WF c) : WF (c.set now k v ttl).2 := by
  have heq : (c.set now k v ttl).2 =
      c.insert k ⟨.StringType, .str v, if ttl > 0 then some (now + ttl) else none⟩ :=
    rfl
  rw [heq]
  exact WF_insert c k _ h rfl

theorem run_wf (c : MemoryCache) (now : Int) (op : Op) (h : WF c) :
    ∃ c', run c now op = some c' ∧ WF c' := by
  cases op with
  | get k =>
    rcases hfind : c.items k with _ | ⟨d, v, e⟩
    · exact ⟨c, by simp [run, MemoryCache.Get, hfind], h⟩
    · rcases hexp : cacheItem.isExpired ⟨d, v, e⟩ now
      · rcases d
        · obtain ⟨s, hs⟩ := typeOk_str _ (h k _ hfind) rfl
          cases hs
          exact ⟨c, by simp [run, MemoryCache.Get, hfind, hexp, GoVal.asString], h⟩
        · exact ⟨c, by simp [run, MemoryCache.Get, hfind, hexp], h⟩
      · exact ⟨c.erase k, by simp [run, MemoryCache.Get, hfind, hexp],
          WF_erase c k h⟩
  | set k v => exact ⟨(c.Set now k v).2, rfl, WF_set c now k v 0 h⟩
  | setWithTTL k v ttl =>
    exact ⟨(c.SetWithTTL now k v ttl).2, rfl, WF_set c now k v ttl h⟩
  | update k v =>
    rcases hfind : c.items k with _ | ⟨d, vv, e⟩
    · exact ⟨c, by simp [run, MemoryCache.Update, hfind], h⟩
    · rcases hexp : cacheItem.isExpired ⟨d, vv, e⟩ now
      · rcases d
        · exact ⟨c.insert k ⟨.StringType, .str v, e⟩,
            by simp [run, MemoryCache.Update, hfind, hexp],
            WF_insert c k _ h rfl⟩
        · exact ⟨c, by simp [run, MemoryCache.Update, hfind, hexp], h⟩
      · exact ⟨c.erase k, by simp [run, MemoryCache.Update, hfind, hexp],
          WF_erase c k h⟩
  | remove k =>
    rcases hfind : c.items k with _ | item
    · exact ⟨c, by simp [run, MemoryCache.Remove, hfind], h⟩
    · exact ⟨c.erase k, by simp [run, MemoryCache.Remove, hfind],
        WF_erase c k h⟩
  | pushFront k v =>
    rcases hfind : c.items k with _ | ⟨d, vv, e⟩
    · exact ⟨c.insert k ⟨.ListType, .lst [v], none⟩,
        by simp [run, MemoryCache.PushFront, hfind], WF_insert c k _ h rfl⟩
    · rcases hexp : cacheItem.isExpired ⟨d, vv, e⟩ now
      · rcases d
        · exact ⟨c, by simp [run, MemoryCache.PushFront, hfind, hexp], h⟩
        · obtain ⟨l, hl⟩ := typeOk_lst _ (h k _ hfind) rfl
          cases hl
          exact ⟨c.insert k ⟨.ListType, .lst (v :: l), e⟩,
            by simp [run, MemoryCache.PushFront, hfind, hexp, GoVal.asList],
            WF_insert c k _ h rfl⟩
      · exact ⟨(c.erase k).insert k ⟨.ListType, .lst [v], none⟩,
          by simp [run, MemoryCache.PushFront, hfind, hexp],
          WF_insert _ k _ (WF_erase c k h) rfl⟩
  | pushBack k v =>
    rcases hfind : c.items k with _ | ⟨d, vv, e⟩
    · exact ⟨c.insert k ⟨.ListType, .lst [v], none⟩,
        by simp [run, MemoryCache.PushBack, hfind], WF_insert c k _ h rfl⟩
    · rcases hexp : cacheItem.isExpired ⟨d, vv, e⟩ now
      · rcases d
        · exact ⟨c, by simp [run, MemoryCache.PushBack, hfind, hexp], h⟩
        · obtain ⟨l, hl⟩ := typeOk_lst _ (h k _ hfind) rfl
          cases hl
          exact ⟨c.insert k ⟨.ListType, .lst (l ++ [v]), e⟩,
            by simp [run, MemoryCache.PushBack, hfind, hexp, GoVal.asList],
            WF_insert c k _ h rfl⟩
      · exact ⟨(c.erase k).insert k ⟨.ListType, .lst [v], none⟩,
          by simp [run, MemoryCache.PushBack, hfind, hexp],
          WF_insert _ k _ (WF_erase c k h) rfl⟩
  | popFront k =>
    rcases hfind : c.items k with _ | ⟨d, vv, e⟩
    · exact ⟨c, by simp [run, MemoryCache.PopFront, hfind], h⟩
    · rcases hexp : cacheItem.isExpired ⟨d, vv, e⟩ now
      · rcases d
        · exact ⟨c, by simp [run, MemoryCache.PopFront, hfind, hexp], h⟩
        · obtain ⟨l, hl⟩ := typeOk_lst _ (h k _ hfind) rfl
          cases hl
          cases l with
          | nil =>
            exact ⟨c,
              by simp [run, MemoryCache.PopFront, hfind, hexp, GoVal.asList], h⟩
          | cons x rest =>
            exact ⟨c.insert k ⟨.ListType, .lst rest, e⟩,
              by simp [run, MemoryCache.PopFront, hfind, hexp, GoVal.asList],
              WF_insert c k _ h rfl⟩
      · exact ⟨c.erase k, by simp [run, MemoryCache.PopFront, hfind, hexp],
          WF_erase c k h⟩
  | popBack k =>
    rcases hfind : c.items k with _ | ⟨d, vv, e⟩
    · exact ⟨c, by simp [run, MemoryCache.PopBack, hfind], h⟩
    · rcases hexp : cacheItem.isExpired ⟨d, vv, e⟩ now
      · rcases d
        · exact ⟨c, by simp [run, MemoryCache.PopBack, hfind, hexp], h⟩
        · obtain ⟨l, hl⟩ := typeOk_lst _ (h k _ hfind) rfl
          cases hl
          cases l with
          | nil =>
            exact ⟨c,
              by simp [run, MemoryCache.PopBack, hfind, hexp, GoVal.asList,
                List.isEmpty], h⟩
          | cons x rest =>
            exact ⟨c.insert k ⟨.ListType, .lst ((x :: rest).dropLast), e⟩,
              by simp [run, MemoryCache.PopBack, hfind, hexp, GoVal.asList,
                List.isEmpty],
              WF_insert c k _ h rfl⟩
      · exact ⟨c.erase k, by simp [run, MemoryCache.PopBack, hfind, hexp],
          WF_erase c k h⟩
  | listRange k start stop =>
    rcases hfind : c.items k with _ | ⟨d, vv, e⟩
    · exact ⟨c, by simp [run, MemoryCache.ListRange, hfind], h⟩
    · rcases hexp : cacheItem.isExpired ⟨d, vv, e⟩ now
      · rcases d
        · exact ⟨c, by simp [run, MemoryCache.ListRange, hfind, hexp], h⟩
        · obtain ⟨l, hl⟩ := typeOk_lst _ (h k _ hfind) rfl
          cases hl
          exact ⟨c,
            by simp [run, MemoryCache.ListRange, hfind, hexp, GoVal.asList], h⟩
      · exact ⟨c.erase k, by simp [run, MemoryCache.ListRange, hfind, hexp],
          WF_erase c k h⟩
  | setTTL k ttl =>
    rcases hfind : c.items k with _ | ⟨d, vv, e⟩
    · exact ⟨c, by simp [run, MemoryCache.SetTTL, hfind], h⟩
    · rcases hexp : cacheItem.isExpired ⟨d, vv, e⟩ now
      · rcases httl : decide (ttl ≤ 0)
        · have httl' : ¬ (ttl ≤ 0) := of_decide_eq_false httl
          exact ⟨c.insert k ⟨d, vv, some (now + ttl)⟩,
            by simp [run, MemoryCache.SetTTL, hfind, hexp, httl'],
            WF_insert c k _ h (h k ⟨d, vv, e⟩ hfind)⟩
        · have httl' : ttl ≤ 0 := of_decide_eq_true httl
          exact ⟨c.insert k ⟨d, vv, none⟩,
            by simp [run, MemoryCache.SetTTL, hfind, hexp, httl'],
            WF_insert c k _ h (h k ⟨d, vv, e⟩ hfind)⟩
      · exact ⟨c.erase k, by simp [run, MemoryCache.SetTTL, hfind, hexp],
          WF_erase c k h⟩
  | getTTL k =>
    rcases hfind : c.items k with _ | ⟨d, vv, e⟩
    · exact ⟨c, by simp [run, MemoryCache.GetTTL, hfind], h⟩
    · rcases hexp : cacheItem.isExpired ⟨d, vv, e⟩ now
      · rcases e with _ | t
        · exact ⟨c, by simp [run, MemoryCache.GetTTL, hfind, hexp], h⟩
        · rcases hlt : decide (t - now < 0)
          · have hlt' : ¬ (t - now < 0) := of_decide_eq_false hlt
            exact ⟨c, by simp [run, MemoryCache.GetTTL, hfind, hexp, hlt'], h⟩
          · have hlt' : t - now < 0 := of_decide_eq_true hlt
            exact ⟨c, by simp [run, MemoryCache.GetTTL, hfind, hexp, hlt'], h⟩
      · exact ⟨c.erase k, by simp [run, MemoryCache.GetTTL, hfind, hexp],
          WF_erase c k h⟩
  | removeTTL k =>
    rcases hfind : c.items k with _ | ⟨d, vv, e⟩
    · exact ⟨c, by simp [run, MemoryCache.RemoveTTL, hfind], h⟩
    · rcases hexp : cacheItem.isExpired ⟨d, vv, e⟩ now
      · exact ⟨c.insert k ⟨d, vv, none⟩,
          by simp [run, MemoryCache.RemoveTTL, hfind, hexp],
          WF_insert c k _ h (h k ⟨d, vv, e⟩ hfind)⟩
      · exact ⟨c.erase k, by simp [run, MemoryCache.RemoveTTL, hfind, hexp],
          WF_erase c k h⟩
  | existsKey k =>
    rcases hfind : c.items k with _ | item
    · exact ⟨c, by simp [run, MemoryCache.Exists, hfind], h⟩
    · rcases hexp : item.isExpired now
      · exact ⟨c, by simp [run, MemoryCache.Exists, hfind, hexp], h⟩
      · exact ⟨c.erase k, by simp [run, MemoryCache.Exists, hfind, hexp],
          WF_erase c k h⟩
  | typeKey k =>
    rcases hfind : c.items k with _ | item
    · exact ⟨c, by simp [run, MemoryCache.Type', hfind], h⟩
    · rcases hexp : item.isExpired now
      · exact ⟨c, by simp [run, MemoryCache.Type', hfind, hexp], h⟩
      · exact ⟨c.erase k, by simp [run, MemoryCache.Type', hfind, hexp],
          WF_erase c k h⟩
  | clear =>
    refine ⟨⟨fun _ => none⟩, rfl, ?_⟩
    intro k item hk
    exact absurd hk (by simp)
  | cleanup => exact ⟨c.cleanup now, rfl, WF_cleanup c now h⟩

theorem runSeq_wf (ops : List (Int × Op)) :
    ∀ c : MemoryCache, WF c → ∃ c', runSeq c ops = some c' ∧ WF c' := by
  induction ops with
  | nil => exact fun c h => ⟨c, rfl, h⟩
  | cons p rest ih =>
    intro c h
    obtain ⟨c1, h1, hw1⟩ := run_wf c p.1 p.2 h
    obtain ⟨c2, h2, hw2⟩ := ih c1 hw1
    refine ⟨c2, ?_, hw2⟩
    obtain ⟨now, op⟩ := p
    simp only [runSeq, h1, Option.bind_some]
    exact h2

/-- C9: in every state reachable from the empty store by any sequence of
operations (each at an arbitrary time stamp), every `StringType` entry holds
a string payload and every `ListType` entry holds a list-of-strings payload;
consequently no run of operations ever hits a failing payload cast — the
whole sequence evaluates to `some` final state. -/
theorem gredis_C9 (ops : List (Int × Op)) :
    ∃ c', runSeq MemoryCache.empty ops = some c' ∧ WF c' :=
  runSeq_wf ops MemoryCache.empty WF_empty
